import Mathlib

/-!
# Verification of the rco-cli SvelteKit payload decoder

A shallow embedding of `src/rco/helpers.py` (functions `unpack_data_array`,
its inner `get_value`, and `unpack_svelte_payload`) together with proofs of
the specified properties of the decoder.

JSON values parsed by Python's `json.loads` are modelled by `JVal`.
Python dicts preserve insertion order, so they are modelled as association
lists `List (String × JVal)`.  Python treats `bool` as a subclass of `int`
(`isinstance(True, int)` is `True`, and `True` indexes like `1`), which the
embedding reproduces via `pyIsInt` and `pyToInt`.  JSON floats are opaque
scalars for the decoder (never an index, never a field map), modelled by
`JVal.float` carrying its literal text.

The recursive `get_value` is embedded with an explicit fuel parameter
(`getValueF`): fuel models the depth of Python's call stack, `none` means
the recursion does not finish within the given depth.  All other code paths
of the Python functions are represented by `Except Err` results.
-/

namespace Rco

/-- A JSON value as produced by `json.loads`. -/
inductive JVal where
  | null
  | bool (b : Bool)
  | int (n : Int)
  | float (lit : String)
  | str (s : String)
  | list (elems : List JVal)
  | dict (entries : List (String × JVal))

/-- Python `isinstance(v, int)`: true for `int` and for `bool`
(Python's `bool` is a subclass of `int`). -/
def pyIsInt : JVal → Bool
  | JVal.int _ => true
  | JVal.bool _ => true
  | _ => false

/-- The integer a Python `int`-like value denotes when used as an index
(`True` is `1`, `False` is `0`).  Only meaningful when `pyIsInt` holds. -/
def pyToInt : JVal → Int
  | JVal.int n => n
  | JVal.bool b => if b then 1 else 0
  | _ => 0

/-- Lookup in a Python dict modelled as an association list
(first entry with the given key, as in a real dict where keys are unique). -/
def pyLookup {α : Type} (k : String) : List (String × α) → Option α
  | [] => none
  | kv :: rest => if kv.1 = k then some kv.2 else pyLookup k rest

/-- Errors surfaced by the decoder.  Each constructor records which Python
exception the corresponding `raise` (or runtime fault) produces:
`malformed` is the `ValueError` for a bad top-level payload or a cell array
whose first element is not a dict; `noFieldMap` is the `ValueError`
"Could not find any mapping dicts in data array."; `noRecordNode` is the
`ValueError` "No unpackable data node found." that the fall-through of the
node loop intends to raise; `notCallable` is the `TypeError` actually
raised by that fall-through, because the statement
`raise ValueError(...)("Not a valid ...")` calls the freshly built
`ValueError` instance; `notIterable` is the `TypeError` from iterating a
non-iterable `nodes` value; `outOfFuel` marks a recursion that does not
finish within the modelled stack depth. -/
inductive Err where
  | malformed
  | noFieldMap
  | noRecordNode
  | notCallable
  | notIterable
  | outOfFuel
deriving Repr, DecidableEq

/-- Resolve every value of an association list through `g`, keeping keys and
order; `none` as soon as `g` fails (models a dict comprehension whose body
may diverge). -/
def mapPairsOpt (g : JVal → Option JVal) : List (String × JVal) → Option (List (String × JVal))
  | [] => some []
  | kv :: rest =>
    match g kv.2, mapPairsOpt g rest with
    | some w, some ws => some ((kv.1, w) :: ws)
    | _, _ => none

/-- Resolve every element of a list through `g` (models a list comprehension
whose body may diverge). -/
def mapListOpt (g : JVal → Option JVal) : List JVal → Option (List JVal)
  | [] => some []
  | v :: rest =>
    match g v, mapListOpt g rest with
    | some w, some ws => some (w :: ws)
    | _, _ => none

/-- One unfolding of the body of `get_value`, with `rec` standing for the
recursive call.  Mirrors the Python source line by line: a non-`int` index,
a negative index, or an index past the end of `data_array` yields `None`;
a dict cell whose values are all `int` is resolved entry-wise; a non-empty
list cell whose elements are all `int` is resolved element-wise; every other
cell is returned unchanged. -/
def getValueStep (cells : List JVal) (rec : JVal → Option JVal) (idx : JVal) :
    Option JVal :=
  if pyIsInt idx = false then some JVal.null
  else if pyToInt idx < 0 then some JVal.null
  else
    match cells[(pyToInt idx).toNat]? with
    | none => some JVal.null
    | some (JVal.dict d) =>
      if d.all (fun kv => pyIsInt kv.2) then
        (mapPairsOpt rec d).map JVal.dict
      else some (JVal.dict d)
    | some (JVal.list l) =>
      if (!l.isEmpty && l.all pyIsInt) = true then
        (mapListOpt rec l).map JVal.list
      else some (JVal.list l)
    | some v => some v

/-- The inner `get_value` of `unpack_data_array`, with fuel bounding the
recursion depth: `none` means the call does not return within that depth. -/
def getValueF (cells : List JVal) : Nat → JVal → Option JVal
  | 0, _ => none
  | fuel + 1, idx => getValueStep cells (fun i => getValueF cells fuel i) idx

/-- The structural Field-Map signature: a dict cell whose values are all
`int` (in Python's sense).  Returns its entries when the signature holds. -/
def isFieldMap : JVal → Option (List (String × JVal))
  | JVal.dict d => if d.all (fun kv => pyIsInt kv.2) then some d else none
  | _ => none

/-- The candidate secondary field maps of a cell array: every Field-Map
among the cells other than the one at position 0 (the Python filter
`item is not mapA` excludes exactly the object at position 0, since
`json.loads` never aliases). -/
def candidatesOf (cells : List JVal) : List (List (String × JVal)) :=
  List.filterMap isFieldMap (cells.drop 1)

/-- Python `max(candidates, key=len)`: fold that replaces the current best
only on a strictly larger key, so the first element attaining the maximum
wins. -/
def pyMaxByLen (best : List (String × JVal)) :
    List (List (String × JVal)) → List (String × JVal)
  | [] => best
  | c :: cs => pyMaxByLen (if best.length < c.length then c else best) cs

/-- Python dict merge `{**a, **b}`: `a`'s keys in order with `b`'s value on
collision, then `b`'s remaining keys in order. -/
def pyMerge (a b : List (String × JVal)) : List (String × JVal) :=
  a.map (fun kv => (kv.1, (pyLookup kv.1 b).getD kv.2)) ++
    b.filter (fun kv => (pyLookup kv.1 a).isNone)

/-- Function `unpack_data_array` from `helpers.py`.  Fails with `malformed` when the
array is empty or its first element is not a dict, with `noFieldMap` when no
candidate secondary map exists; otherwise merges the primary map with the
largest candidate and resolves every merged entry through `get_value`. -/
def unpack_data_array (fuel : Nat) (cells : List JVal) :
    Except Err (List (String × JVal)) :=
  match cells with
  | JVal.dict mapA :: _ =>
    (match candidatesOf cells with
     | [] => Except.error Err.noFieldMap
     | c :: cs =>
       match mapPairsOpt (fun i => getValueF cells fuel i) (pyMerge mapA (pyMaxByLen c cs)) with
       | none => Except.error Err.outOfFuel
       | some out => Except.ok out)
  | _ => Except.error Err.malformed

/-- Python `v == "data"` for a possibly-absent JSON value: only the string
`"data"` compares equal. -/
def eqStrData : Option JVal → Bool
  | some (JVal.str s) => s = "data"
  | _ => false

/-- Python iteration `for x in v`: lists yield their elements, strings their
characters (as one-character strings), dicts their keys; every other value
raises `TypeError` (modelled as `none`). -/
def iterElems : JVal → Option (List JVal)
  | JVal.list l => some l
  | JVal.str s => some (s.data.map (fun c => JVal.str c.toString))
  | JVal.dict d => some (d.map (fun kv => JVal.str kv.1))
  | _ => none

/-- The node loop of `unpack_svelte_payload`, stopping at the first node
that is a dict with discriminator `"data"`, a list-valued `data` field, and
whose first cell is not a `profile`-bearing dict.  The fall-through of the
loop executes `raise ValueError("No unpackable data node found.")("Not a
valid SvelteKit __data.json payload.")`, which calls the `ValueError`
instance and therefore raises `TypeError` (`notCallable`), not the intended
`noRecordNode` error. -/
def selectLoop : List JVal → Except Err (List JVal)
  | [] => Except.error Err.notCallable
  | node :: rest =>
    match node with
    | JVal.dict nd =>
      if eqStrData (pyLookup "type" nd) = false then selectLoop rest
      else
        match pyLookup "data" nd with
        | some (JVal.list da) =>
          (match da with
           | JVal.dict first :: _ =>
             if (pyLookup "profile" first).isSome then selectLoop rest
             else Except.ok da
           | _ => Except.ok da)
        | _ => selectLoop rest
    | _ => selectLoop rest

/-- The node-selection phase of `unpack_svelte_payload` (the spec's
`selectRecordNode`): guard on the top-level discriminator and the presence
of a `nodes` entry, then iterate the nodes with `selectLoop`.  The payload
is the top-level JSON object, modelled by its entry list. -/
def selectRecordNode (payload : List (String × JVal)) : Except Err (List JVal) :=
  if (!eqStrData (pyLookup "type" payload) || (pyLookup "nodes" payload).isNone) = true then
    Except.error Err.malformed
  else
    match iterElems ((pyLookup "nodes" payload).getD JVal.null) with
    | none => Except.error Err.notIterable
    | some nodes => selectLoop nodes

/-- Function `unpack_svelte_payload` from `helpers.py`: select the record node, then
decode its cell array. -/
def unpack_svelte_payload (fuel : Nat) (payload : List (String × JVal)) :
    Except Err (List (String × JVal)) :=
  match selectRecordNode payload with
  | Except.error e => Except.error e
  | Except.ok da => unpack_data_array fuel da

/-- The cells a field-map or index-list cell dereferences recursively
(the arguments `get_value` is called on from that cell). -/
def refTargets : JVal → List JVal
  | JVal.dict d => if d.all (fun kv => pyIsInt kv.2) then d.map (fun kv => kv.2) else []
  | JVal.list l => if (!l.isEmpty && l.all pyIsInt) = true then l else []
  | _ => []

/-- One dereference step of `get_value` over positions of the cell array:
`refIdx cells i j` holds when resolving position `j` recursively resolves
the in-range position `i`.  The index graph of a cell array is acyclic
exactly when this relation is well-founded (the array is finite). -/
def refIdx (cells : List JVal) (i j : Nat) : Prop :=
  ∃ cell v, cells[j]? = some cell ∧ v ∈ refTargets cell ∧
    pyToInt v = (i : Int) ∧ i < cells.length

/-! ### Lemmas about `pyLookup`, `pyMerge` and the resolution maps -/

theorem pyLookup_append {α : Type} (k : String) (l₁ l₂ : List (String × α)) :
    pyLookup k (l₁ ++ l₂) =
      match pyLookup k l₁ with
      | some v => some v
      | none => pyLookup k l₂ := by
  induction l₁ with
  | nil => simp [pyLookup]
  | cons kv rest ih =>
    by_cases h : kv.1 = k
    · simp [pyLookup, h]
    · simp [pyLookup, h, ih]

theorem pyLookup_mem {α : Type} {k : String} {v : α} {l : List (String × α)}
    (h : pyLookup k l = some v) : (k, v) ∈ l := by
  induction l with
  | nil => simp [pyLookup] at h
  | cons kv rest ih =>
    cases kv with
    | mk k1 v1 =>
      by_cases hk : k1 = k
      · subst hk
        simp only [pyLookup, if_pos] at h
        cases h
        exact List.mem_cons_self _ _
      · simp only [pyLookup, hk, if_neg, not_false_iff] at h
        exact List.mem_cons_of_mem _ (ih h)

theorem pyLookup_mapped (k : String) (b : List (String × JVal))
    (a : List (String × JVal)) :
    pyLookup k (a.map (fun kv => (kv.1, (pyLookup kv.1 b).getD kv.2))) =
      (pyLookup k a).map (fun v => (pyLookup k b).getD v) := by
  induction a with
  | nil => simp [pyLookup]
  | cons kv rest ih =>
    by_cases h : kv.1 = k
    · subst h
      simp [pyLookup]
    · simp [pyLookup, h, ih]

theorem pyLookup_filter_of_none (k : String) (a b : List (String × JVal))
    (ha : pyLookup k a = none) :
    pyLookup k (b.filter (fun kv => (pyLookup kv.1 a).isNone)) = pyLookup k b := by
  induction b with
  | nil => simp
  | cons kv rest ih =>
    by_cases h : kv.1 = k
    · simp [List.filter, pyLookup, h, ha]
    · by_cases hkeep : (pyLookup kv.1 a).isNone = true
      · simp [List.filter, hkeep, pyLookup, h, ih]
      · simp [List.filter, hkeep, pyLookup, h, ih]

theorem pyLookup_filter_of_some (k : String) (a b : List (String × JVal))
    {v : JVal} (ha : pyLookup k a = some v) :
    pyLookup k (b.filter (fun kv => (pyLookup kv.1 a).isNone)) = none := by
  induction b with
  | nil => simp [pyLookup]
  | cons kv rest ih =>
    by_cases h : kv.1 = k
    · simp [List.filter, h, ha, ih]
    · by_cases hkeep : (pyLookup kv.1 a).isNone = true
      · simp [List.filter, hkeep, pyLookup, h, ih]
      · simp [List.filter, hkeep, ih]

/-- Lookup through the Python merge `{**a, **b}`: the second dict wins on
collision, otherwise the first dict answers. -/
theorem pyLookup_pyMerge (a b : List (String × JVal)) (k : String) :
    pyLookup k (pyMerge a b) =
      match pyLookup k b with
      | some w => some w
      | none => pyLookup k a := by
  unfold pyMerge
  rw [pyLookup_append, pyLookup_mapped]
  cases ha : pyLookup k a with
  | none =>
    rw [pyLookup_filter_of_none k a b ha]
    cases hb : pyLookup k b <;> simp
  | some v =>
    rw [pyLookup_filter_of_some k a b ha]
    cases hb : pyLookup k b <;> simp

theorem mapPairsOpt_keys {g : JVal → Option JVal}
    {l out : List (String × JVal)} (h : mapPairsOpt g l = some out) :
    out.map Prod.fst = l.map Prod.fst := by
  induction l generalizing out with
  | nil =>
    simp [mapPairsOpt] at h
    subst h
    rfl
  | cons kv rest ih =>
    simp only [mapPairsOpt] at h
    cases hg : g kv.2 with
    | none => rw [hg] at h; exact absurd h (by simp)
    | some w =>
      cases hrest : mapPairsOpt g rest with
      | none => rw [hg, hrest] at h; exact absurd h (by simp)
      | some ws =>
        rw [hg, hrest] at h
        cases h
        simp [ih hrest]

theorem mapPairsOpt_lookup {g : JVal → Option JVal}
    {l out : List (String × JVal)} (h : mapPairsOpt g l = some out)
    (k : String) : pyLookup k out = (pyLookup k l).bind g := by
  induction l generalizing out with
  | nil =>
    simp [mapPairsOpt] at h
    subst h
    simp [pyLookup]
  | cons kv rest ih =>
    simp only [mapPairsOpt] at h
    cases hg : g kv.2 with
    | none => rw [hg] at h; exact absurd h (by simp)
    | some w =>
      cases hrest : mapPairsOpt g rest with
      | none => rw [hg, hrest] at h; exact absurd h (by simp)
      | some ws =>
        rw [hg, hrest] at h
        cases h
        by_cases hk : kv.1 = k
        · simp [pyLookup, hk, hg]
        · simp [pyLookup, hk, ih hrest]

theorem mapPairsOpt_isSome_of_entries {g : JVal → Option JVal}
    {l : List (String × JVal)} (h : ∀ kv ∈ l, (g kv.2).isSome = true) :
    (mapPairsOpt g l).isSome = true := by
  induction l with
  | nil => simp [mapPairsOpt]
  | cons kv rest ih =>
    have hkv := h kv (List.mem_cons_self kv rest)
    cases hg : g kv.2 with
    | none => rw [hg] at hkv; exact absurd hkv (by simp)
    | some w =>
      have hrest := ih (fun x hx => h x (List.mem_cons_of_mem kv hx))
      cases hr : mapPairsOpt g rest with
      | none => rw [hr] at hrest; exact absurd hrest (by simp)
      | some ws => simp [mapPairsOpt, hg, hr]

theorem mapPairsOpt_congr {g g' : JVal → Option JVal}
    (hgg : ∀ v w, g v = some w → g' v = some w) :
    ∀ {l out : List (String × JVal)}, mapPairsOpt g l = some out →
      mapPairsOpt g' l = some out := by
  intro l
  induction l with
  | nil => intro out h; exact h
  | cons kv rest ih =>
    intro out h
    simp only [mapPairsOpt] at h ⊢
    cases hg : g kv.2 with
    | none => rw [hg] at h; exact absurd h (by simp)
    | some w =>
      cases hrest : mapPairsOpt g rest with
      | none => rw [hg, hrest] at h; exact absurd h (by simp)
      | some ws =>
        rw [hg, hrest] at h
        rw [hgg kv.2 w hg, ih hrest]
        exact h

theorem mapListOpt_congr {g g' : JVal → Option JVal}
    (hgg : ∀ v w, g v = some w → g' v = some w) :
    ∀ {l out : List JVal}, mapListOpt g l = some out →
      mapListOpt g' l = some out := by
  intro l
  induction l with
  | nil => intro out h; exact h
  | cons v rest ih =>
    intro out h
    simp only [mapListOpt] at h ⊢
    cases hg : g v with
    | none => rw [hg] at h; exact absurd h (by simp)
    | some w =>
      cases hrest : mapListOpt g rest with
      | none => rw [hg, hrest] at h; exact absurd h (by simp)
      | some ws =>
        rw [hg, hrest] at h
        rw [hgg v w hg, ih hrest]
        exact h

theorem mapListOpt_isSome_of_elems {g : JVal → Option JVal}
    {l : List JVal} (h : ∀ v ∈ l, (g v).isSome = true) :
    (mapListOpt g l).isSome = true := by
  induction l with
  | nil => simp [mapListOpt]
  | cons v rest ih =>
    have hv := h v (List.mem_cons_self v rest)
    cases hg : g v with
    | none => rw [hg] at hv; exact absurd hv (by simp)
    | some w =>
      have hrest := ih (fun x hx => h x (List.mem_cons_of_mem v hx))
      cases hr : mapListOpt g rest with
      | none => rw [hr] at hrest; exact absurd hrest (by simp)
      | some ws => simp [mapListOpt, hg, hr]

/-! ### Fuel monotonicity of `get_value` -/

theorem getValueStep_congr {cells : List JVal} {r r' : JVal → Option JVal}
    (hrr : ∀ v w, r v = some w → r' v = some w) {idx w : JVal}
    (h : getValueStep cells r idx = some w) : getValueStep cells r' idx = some w := by
  unfold getValueStep at h ⊢
  by_cases hi : pyIsInt idx = false
  · simpa [hi] using (by simpa [hi] using h : some JVal.null = some w)
  · simp only [hi, if_false] at h ⊢
    by_cases hneg : pyToInt idx < 0
    · simp only [hneg, if_true] at h ⊢
      exact h
    · simp only [hneg, if_false] at h ⊢
      cases hget : cells[(pyToInt idx).toNat]? with
      | none => rw [hget] at h; exact h
      | some v =>
        rw [hget] at h
        cases v with
        | dict d =>
          by_cases hd : d.all (fun kv => pyIsInt kv.2) = true
          · simp only [hd, if_true] at h ⊢
            cases hm : mapPairsOpt r d with
            | none => rw [hm] at h; exact absurd h (by simp)
            | some ws =>
              rw [hm] at h
              rw [mapPairsOpt_congr hrr hm]
              exact h
          · simp only [hd, if_false] at h ⊢
            exact h
        | list l =>
          by_cases hl : (!l.isEmpty && l.all pyIsInt) = true
          · simp only [hl, if_true] at h ⊢
            cases hm : mapListOpt r l with
            | none => rw [hm] at h; exact absurd h (by simp)
            | some ws =>
              rw [hm] at h
              rw [mapListOpt_congr hrr hm]
              exact h
          · simp only [hl, if_false] at h ⊢
            exact h
        | null => exact h
        | bool b => exact h
        | int n => exact h
        | float lit => exact h
        | str s => exact h

theorem getValueF_succ {cells : List JVal} :
    ∀ {fuel : Nat} {idx w : JVal}, getValueF cells fuel idx = some w →
      getValueF cells (fuel + 1) idx = some w := by
  intro fuel
  induction fuel with
  | zero => intro idx w h; exact absurd h (by simp [getValueF])
  | succ fuel ih =>
    intro idx w h
    rw [getValueF] at h ⊢
    exact getValueStep_congr (fun v w hv => ih hv) h

theorem getValueF_mono {cells : List JVal} {fuel fuel' : Nat} {idx w : JVal}
    (hle : fuel ≤ fuel') (h : getValueF cells fuel idx = some w) :
    getValueF cells fuel' idx = some w := by
  induction fuel' with
  | zero =>
    have : fuel = 0 := Nat.le_zero.mp hle
    subst this
    exact h
  | succ n ih =>
    rcases Nat.lt_or_ge fuel (n + 1) with hlt | hge
    · exact getValueF_succ (ih (Nat.lt_succ_iff.mp hlt))
    · have : fuel = n + 1 := Nat.le_antisymm hle hge
      subst this
      exact h

/-- A single fuel bound sufficient for every element of a finite list. -/
theorem exists_uniform_fuel {α : Type} (p : Nat → α → Prop)
    (mono : ∀ f f' x, f ≤ f' → p f x → p f' x) :
    ∀ l : List α, (∀ x ∈ l, ∃ f, p f x) → ∃ F, ∀ x ∈ l, p F x := by
  intro l
  induction l with
  | nil => intro _; exact ⟨0, by simp⟩
  | cons x rest ih =>
    intro h
    obtain ⟨fx, hfx⟩ := h x (List.mem_cons_self x rest)
    obtain ⟨F, hF⟩ := ih (fun y hy => h y (List.mem_cons_of_mem x hy))
    refine ⟨max fx F, ?_⟩
    intro y hy
    rcases List.mem_cons.mp hy with rfl | hy'
    · exact mono fx _ y (Nat.le_max_left fx F) hfx
    · exact mono F _ y (Nat.le_max_right fx F) (hF y hy')

/-! ### Claim theorems: value-level behaviour of `get_value` -/

/-- C7: for every cell array and every index that is not an integer, or is
negative, or is at least the length of the cell array, `get_value` returns
`None` (and, returning a value at any positive recursion depth, never
raises). -/
theorem get_value_invalid_index_null (cells : List JVal) (idx : JVal) (fuel : Nat)
    (h : pyIsInt idx = false ∨ pyToInt idx < 0 ∨ (cells.length : Int) ≤ pyToInt idx) :
    getValueF cells (fuel + 1) idx = some JVal.null := by
  rw [getValueF]
  unfold getValueStep
  rcases h with h | h | h
  · simp [h]
  · by_cases hi : pyIsInt idx = false
    · simp [hi]
    · simp [hi, h]
  · by_cases hi : pyIsInt idx = false
    · simp [hi]
    · have hge : (0 : Int) ≤ pyToInt idx := le_trans (Int.ofNat_nonneg _) h
      have hnone : cells[(pyToInt idx).toNat]? = none := by
        apply List.getElem?_eq_none_iff.mpr
        omega
      simp [hi, not_lt.mpr hge, hnone]

theorem get_value_invalid_index_null_witness :
    getValueF [JVal.int 7] (0 + 1) (JVal.str "x") = some JVal.null :=
  get_value_invalid_index_null [JVal.int 7] (JVal.str "x") 0 (Or.inl rfl)

/-- C8: an in-range cell that is the empty list (or any list with a
non-integer element) is passed through unchanged by `get_value`; the
index-list resolution branch requires a non-empty all-integer list. -/
theorem get_value_empty_list_passthrough (cells : List JVal) (fuel : Nat) (n : Nat)
    (l : List JVal) (hget : cells[n]? = some (JVal.list l))
    (hl : l.isEmpty = true ∨ l.all pyIsInt = false) :
    getValueF cells (fuel + 1) (JVal.int (n : Int)) = some (JVal.list l) := by
  rw [getValueF]
  unfold getValueStep
  have hcond : (!l.isEmpty && l.all pyIsInt) = false := by
    rcases hl with h | h <;> simp [h]
  have h0 : ¬ ((n : Int) < 0) := by omega
  simp [pyIsInt, pyToInt, h0, hget, hcond]

theorem get_value_empty_list_passthrough_witness :
    getValueF [JVal.list []] (0 + 1) (JVal.int ((0 : Nat) : Int)) = some (JVal.list []) :=
  get_value_empty_list_passthrough [JVal.list []] 0 0 [] rfl (Or.inl rfl)

/-! ### The chosen secondary map: first candidate of maximal size -/

theorem mapPairsOpt_entry_isSome {g : JVal → Option JVal} :
    ∀ {l out : List (String × JVal)}, mapPairsOpt g l = some out →
      ∀ kv ∈ l, (g kv.2).isSome = true := by
  intro l
  induction l with
  | nil => intro out _ kv hkv; simp at hkv
  | cons kv0 rest ih =>
    intro out h kv hkv
    simp only [mapPairsOpt] at h
    cases hg : g kv0.2 with
    | none => rw [hg] at h; exact absurd h (by simp)
    | some w =>
      cases hrest : mapPairsOpt g rest with
      | none => rw [hg, hrest] at h; exact absurd h (by simp)
      | some ws =>
        rcases List.mem_cons.mp hkv with rfl | hkv'
        · simp [hg]
        · exact ih hrest kv hkv'

theorem pyMerge_nil_right (a : List (String × JVal)) : pyMerge a [] = a := by
  unfold pyMerge
  simp [pyLookup]

/-- Result of `pyMaxByLen`: it returns an element of maximal length, and it is the first
element of the list attaining that length (Python `max` keeps the earliest
maximum). -/
theorem pyMaxByLen_spec :
    ∀ (cs : List (List (String × JVal))) (best : List (String × JVal)),
      (∀ d ∈ best :: cs, d.length ≤ (pyMaxByLen best cs).length) ∧
      (best :: cs).find? (fun d => d.length == (pyMaxByLen best cs).length) =
        some (pyMaxByLen best cs) := by
  intro cs
  induction cs with
  | nil =>
    intro best
    constructor
    · intro d hd
      rcases List.mem_cons.mp hd with rfl | h
      · exact le_refl _
      · simp at h
    · simp [pyMaxByLen]
  | cons c cs ih =>
    intro best
    by_cases hc : best.length < c.length
    · have hstep : pyMaxByLen best (c :: cs) = pyMaxByLen c cs := by
        simp [pyMaxByLen, hc]
      obtain ⟨ihall, ihfind⟩ := ih c
      rw [hstep]
      constructor
      · intro d hd
        rcases List.mem_cons.mp hd with rfl | hd'
        · exact le_trans (le_of_lt hc) (ihall c (List.mem_cons_self c cs))
        · exact ihall d hd'
      · have hbestne : (best.length == (pyMaxByLen c cs).length) = false := by
          have hlt : best.length < (pyMaxByLen c cs).length :=
            lt_of_lt_of_le hc (ihall c (List.mem_cons_self c cs))
          exact beq_eq_false_iff_ne.mpr (Nat.ne_of_lt hlt)
        rw [List.find?_cons_of_neg _ (by simp [hbestne])]
        exact ihfind
    · have hstep : pyMaxByLen best (c :: cs) = pyMaxByLen best cs := by
        simp [pyMaxByLen, hc]
      obtain ⟨ihall, ihfind⟩ := ih best
      have hbl : best.length ≤ (pyMaxByLen best cs).length :=
        ihall best (List.mem_cons_self best cs)
      rw [hstep]
      constructor
      · intro d hd
        rcases List.mem_cons.mp hd with rfl | hd'
        · exact hbl
        · rcases List.mem_cons.mp hd' with rfl | hd''
          · exact le_trans (not_lt.mp hc) hbl
          · exact ihall d (List.mem_cons_of_mem _ hd'')
      · by_cases hb : best.length = (pyMaxByLen best cs).length
        · have hfound : (best :: cs).find?
              (fun d => d.length == (pyMaxByLen best cs).length) = some best :=
            List.find?_cons_of_pos _ (by simp [hb])
          have hrb : pyMaxByLen best cs = best := by
            have := ihfind.symm.trans hfound
            exact Option.some.inj this
          rw [hrb] at hb ⊢
          exact List.find?_cons_of_pos _ (by simp)
        · have hblt : best.length < (pyMaxByLen best cs).length :=
            lt_of_le_of_ne hbl hb
          have hcne : (c.length == (pyMaxByLen best cs).length) = false := by
            have : c.length < (pyMaxByLen best cs).length :=
              lt_of_le_of_lt (not_lt.mp hc) hblt
            exact beq_eq_false_iff_ne.mpr (Nat.ne_of_lt this)
          have hbne : (best.length == (pyMaxByLen best cs).length) = false :=
            beq_eq_false_iff_ne.mpr hb
          rw [List.find?_cons_of_neg _ (by simp [hbne]),
            List.find?_cons_of_neg _ (by simp [hcne])]
          rw [List.find?_cons_of_neg _ (by simp [hbne])] at ihfind
          exact ihfind

/-- C6: the secondary map chosen by the decoder is the candidate with the
most entries, and on ties the first such candidate in scan order. -/
theorem secondary_map_is_first_largest_candidate (cells : List JVal)
    (c : List (String × JVal)) (cs : List (List (String × JVal)))
    (hc : candidatesOf cells = c :: cs) :
    (∀ d ∈ candidatesOf cells, d.length ≤ (pyMaxByLen c cs).length) ∧
    (candidatesOf cells).find? (fun d => d.length == (pyMaxByLen c cs).length) =
      some (pyMaxByLen c cs) := by
  rw [hc]
  exact pyMaxByLen_spec cs c

theorem secondary_map_is_first_largest_candidate_witness :
    ((candidatesOf [JVal.dict [("a", JVal.int 0)],
        JVal.dict [("ticker", JVal.int 3), ("strike", JVal.int 4)],
        JVal.dict [("x", JVal.int 5)]]).find?
      (fun d => d.length ==
        (pyMaxByLen [("ticker", JVal.int 3), ("strike", JVal.int 4)]
          [[("x", JVal.int 5)]]).length) =
      some (pyMaxByLen [("ticker", JVal.int 3), ("strike", JVal.int 4)]
        [[("x", JVal.int 5)]])) ∧
    pyMaxByLen [("ticker", JVal.int 3), ("strike", JVal.int 4)] [[("x", JVal.int 5)]] =
      [("ticker", JVal.int 3), ("strike", JVal.int 4)] :=
  ⟨(secondary_map_is_first_largest_candidate
      [JVal.dict [("a", JVal.int 0)],
        JVal.dict [("ticker", JVal.int 3), ("strike", JVal.int 4)],
        JVal.dict [("x", JVal.int 5)]]
      [("ticker", JVal.int 3), ("strike", JVal.int 4)] [[("x", JVal.int 5)]] rfl).2,
    rfl⟩

/-! ### Claim theorems about `unpack_data_array` -/

/-- C4: a cell array whose first element is a dict but which holds no other
all-integer-valued dict fails with `noFieldMap` instead of proceeding with
the primary map alone. -/
theorem unpack_data_array_no_candidates (fuel : Nat) (cells : List JVal)
    (a : List (String × JVal)) (h0 : cells.head? = some (JVal.dict a))
    (hc : candidatesOf cells = []) :
    unpack_data_array fuel cells = Except.error Err.noFieldMap := by
  cases cells with
  | nil => exact absurd h0 (by simp)
  | cons first rest =>
    have hf : first = JVal.dict a := by simpa using h0
    subst hf
    simp [unpack_data_array, hc]

theorem unpack_data_array_no_candidates_witness :
    unpack_data_array 0 [JVal.dict [], JVal.int 3] = Except.error Err.noFieldMap :=
  unpack_data_array_no_candidates 0 [JVal.dict [], JVal.int 3] [] rfl rfl

/-- C10: when the only candidate secondary map is the empty dict (which
satisfies the all-integer-values signature vacuously), the decoder does not
fail with `noFieldMap`; the empty dict is merged as the secondary map and
the output keys are exactly the primary map's keys. -/
theorem unpack_data_array_empty_secondary_ok (fuel : Nat) (cells : List JVal)
    (a : List (String × JVal)) (h0 : cells.head? = some (JVal.dict a))
    (hc : candidatesOf cells = [[]]) :
    unpack_data_array fuel cells ≠ Except.error Err.noFieldMap ∧
      ∀ out, unpack_data_array fuel cells = Except.ok out →
        out.map Prod.fst = a.map Prod.fst := by
  cases cells with
  | nil => exact absurd h0 (by simp)
  | cons first rest =>
    have hf : first = JVal.dict a := by simpa using h0
    subst hf
    have hun : unpack_data_array fuel (JVal.dict a :: rest) =
        match mapPairsOpt (fun i => getValueF (JVal.dict a :: rest) fuel i) a with
        | none => Except.error Err.outOfFuel
        | some out => Except.ok out := by
      simp [unpack_data_array, hc, pyMaxByLen, pyMerge_nil_right]
    cases hm : mapPairsOpt (fun i => getValueF (JVal.dict a :: rest) fuel i) a with
    | none =>
      rw [hm] at hun
      have hun' : unpack_data_array fuel (JVal.dict a :: rest) =
          Except.error Err.outOfFuel := hun
      constructor
      · rw [hun']
        intro hcontra
        exact absurd (Except.error.inj hcontra) (by decide)
      · intro out hout
        rw [hun'] at hout
        exact absurd hout (by simp)
    | some out' =>
      rw [hm] at hun
      have hun' : unpack_data_array fuel (JVal.dict a :: rest) =
          Except.ok out' := hun
      constructor
      · rw [hun']
        intro hcontra
        exact absurd hcontra (by simp)
      · intro out hout
        rw [hun'] at hout
        cases hout
        exact mapPairsOpt_keys hm

theorem unpack_data_array_empty_secondary_ok_witness :
    List.map Prod.fst [("a", JVal.int 7)] = List.map Prod.fst [("a", JVal.int 2)] :=
  (unpack_data_array_empty_secondary_ok 1
    [JVal.dict [("a", JVal.int 2)], JVal.dict [], JVal.int 7]
    [("a", JVal.int 2)] rfl rfl).2 [("a", JVal.int 7)] rfl

/-- C5: on success the output's key set is the union of the primary and the
chosen secondary map's keys, and on a key collision the value is resolved
through the secondary map's index. -/
theorem unpack_data_array_keys_union_secondary_wins
    (fuel : Nat) (cells : List JVal) (a : List (String × JVal))
    (c : List (String × JVal)) (cs : List (List (String × JVal)))
    (out : List (String × JVal))
    (h0 : cells.head? = some (JVal.dict a))
    (hc : candidatesOf cells = c :: cs)
    (hout : unpack_data_array fuel cells = Except.ok out) :
    (∀ k : String, (pyLookup k out).isSome = true ↔
        ((pyLookup k a).isSome = true ∨
          (pyLookup k (pyMaxByLen c cs)).isSome = true)) ∧
    (∀ k i, pyLookup k (pyMaxByLen c cs) = some i →
        pyLookup k out = getValueF cells fuel i) := by
  cases cells with
  | nil => exact absurd h0 (by simp)
  | cons first rest =>
    have hf : first = JVal.dict a := by simpa using h0
    subst hf
    have hun : unpack_data_array fuel (JVal.dict a :: rest) =
        match mapPairsOpt (fun i => getValueF (JVal.dict a :: rest) fuel i)
            (pyMerge a (pyMaxByLen c cs)) with
        | none => Except.error Err.outOfFuel
        | some o => Except.ok o := by
      simp [unpack_data_array, hc]
    cases hm : mapPairsOpt (fun i => getValueF (JVal.dict a :: rest) fuel i)
        (pyMerge a (pyMaxByLen c cs)) with
    | none =>
      rw [hm] at hun
      have hun' : unpack_data_array fuel (JVal.dict a :: rest) =
          Except.error Err.outOfFuel := hun
      rw [hun'] at hout
      exact absurd hout (by simp)
    | some out' =>
      rw [hm] at hun
      have hun' : unpack_data_array fuel (JVal.dict a :: rest) =
          Except.ok out' := hun
      rw [hun'] at hout
      cases hout
      constructor
      · intro k
        have hlk := mapPairsOpt_lookup hm k
        have hmg := pyLookup_pyMerge a (pyMaxByLen c cs) k
        constructor
        · intro hsome
          rw [hlk] at hsome
          cases hmv : pyLookup k (pyMerge a (pyMaxByLen c cs)) with
          | none => rw [hmv] at hsome; exact absurd hsome (by simp)
          | some v =>
            rw [hmv] at hmg
            cases hb : pyLookup k (pyMaxByLen c cs) with
            | some w => exact Or.inr (by simp [hb])
            | none =>
              rw [hb] at hmg
              have hva : some v = pyLookup k a := hmg
              exact Or.inl (by rw [← hva]; simp)
        · intro hor
          rw [hlk]
          have hmv : (pyLookup k (pyMerge a (pyMaxByLen c cs))).isSome = true := by
            rw [hmg]
            cases hb : pyLookup k (pyMaxByLen c cs) with
            | some w => simp
            | none =>
              rcases hor with ha | hb'
              · simpa using ha
              · rw [hb] at hb'; exact absurd hb' (by simp)
          cases hmv2 : pyLookup k (pyMerge a (pyMaxByLen c cs)) with
          | none => rw [hmv2] at hmv; exact absurd hmv (by simp)
          | some v =>
            have hmem := pyLookup_mem hmv2
            have := mapPairsOpt_entry_isSome hm (k, v) hmem
            simpa [hmv2] using this
      · intro k i hki
        have hlk := mapPairsOpt_lookup hm k
        have hmg := pyLookup_pyMerge a (pyMaxByLen c cs) k
        rw [hki] at hmg
        have hmi : pyLookup k (pyMerge a (pyMaxByLen c cs)) = some i := hmg
        rw [hlk, hmi]
        rfl

theorem unpack_data_array_keys_union_secondary_wins_witness :
    pyLookup "shared"
        [("id", JVal.int 7), ("shared", JVal.str "v"), ("extra", JVal.str "v")] =
      getValueF
        [JVal.dict [("id", JVal.int 3), ("shared", JVal.int 3)],
          JVal.dict [("shared", JVal.int 4), ("extra", JVal.int 4)],
          JVal.null, JVal.int 7, JVal.str "v"] 1 (JVal.int 4) :=
  (unpack_data_array_keys_union_secondary_wins 1
    [JVal.dict [("id", JVal.int 3), ("shared", JVal.int 3)],
      JVal.dict [("shared", JVal.int 4), ("extra", JVal.int 4)],
      JVal.null, JVal.int 7, JVal.str "v"]
    [("id", JVal.int 3), ("shared", JVal.int 3)]
    [("shared", JVal.int 4), ("extra", JVal.int 4)] []
    [("id", JVal.int 7), ("shared", JVal.str "v"), ("extra", JVal.str "v")]
    rfl rfl rfl).2 "shared" (JVal.int 4) rfl

/-! ### Claim theorems about node selection -/

/-- C3: in the three-node scenario the first node is skipped for its wrong
discriminator, the third would be skipped for its `profile` first cell, and
the second node's cell array is returned. -/
theorem selectRecordNode_scenario :
    selectRecordNode
      [("type", JVal.str "data"),
       ("nodes", JVal.list
         [JVal.dict [("type", JVal.str "skip")],
          JVal.dict [("type", JVal.str "data"),
                     ("data", JVal.list [JVal.dict [("a", JVal.int 1)]])],
          JVal.dict [("type", JVal.str "data"),
                     ("data", JVal.list
                       [JVal.dict [("profile", JVal.int 1)], JVal.null])]])] =
      Except.ok [JVal.dict [("a", JVal.int 1)]] := rfl

/-- C1 (code bug): on a payload whose only data node carries a
`profile`-bearing first cell, the node loop falls through to the statement
`raise ValueError("No unpackable data node found.")("Not a valid ...")`,
which calls the `ValueError` instance and hence raises `TypeError`
(`notCallable`), not the intended `noRecordNode` error. -/
theorem unpack_svelte_payload_profile_only_type_error :
    selectRecordNode
      [("type", JVal.str "data"),
       ("nodes", JVal.list
         [JVal.dict [("type", JVal.str "data"),
                     ("data", JVal.list [JVal.dict [("profile", JVal.int 0)]])]])] =
      Except.error Err.notCallable ∧
    Err.notCallable ≠ Err.noRecordNode :=
  ⟨rfl, by decide⟩

/-- C9 counterexample: a payload whose `nodes` member is present but is not
a sequence is not rejected as `malformed`; the code only checks key
presence, and iterating the non-iterable value raises `TypeError`. -/
theorem selectRecordNode_nonlist_nodes_not_malformed :
    selectRecordNode [("type", JVal.str "data"), ("nodes", JVal.int 5)] =
      Except.error Err.notIterable ∧
    Err.notIterable ≠ Err.malformed :=
  ⟨rfl, by decide⟩

/-- C9 (amended): the decoder fails fast with `malformed` when the
top-level discriminator does not equal the string `"data"` or the payload
has no `nodes` entry, and `unpack_data_array` fails with `malformed` for
every cell array whose element 0 is not a dict (including the empty
array). -/
theorem malformed_fail_fast :
    (∀ payload : List (String × JVal),
      (eqStrData (pyLookup "type" payload) = false ∨ pyLookup "nodes" payload = none) →
        selectRecordNode payload = Except.error Err.malformed) ∧
    (∀ (fuel : Nat) (cells : List JVal),
      (∀ d : List (String × JVal), cells.head? ≠ some (JVal.dict d)) →
        unpack_data_array fuel cells = Except.error Err.malformed) := by
  constructor
  · intro payload h
    unfold selectRecordNode
    have hcond : (!eqStrData (pyLookup "type" payload) ||
        (pyLookup "nodes" payload).isNone) = true := by
      rcases h with h | h <;> simp [h]
    rw [if_pos hcond]
  · intro fuel cells h
    cases cells with
    | nil => rfl
    | cons first rest =>
      cases first with
      | dict d => exact absurd rfl (h d)
      | null => rfl
      | bool b => rfl
      | int n => rfl
      | float lit => rfl
      | str s => rfl
      | list l => rfl

theorem malformed_fail_fast_witness :
    selectRecordNode [("nodes", JVal.list [])] = Except.error Err.malformed ∧
    unpack_data_array 0 [JVal.int 1] = Except.error Err.malformed :=
  ⟨malformed_fail_fast.1 [("nodes", JVal.list [])] (Or.inl rfl),
   malformed_fail_fast.2 0 [JVal.int 1]
     (fun _ h => JVal.noConfusion (Option.some.inj h))⟩

/-! ### Claim theorems about termination of `get_value` -/

/-- C2 counterexample: on a cell array whose index graph has a cycle (two
all-integer dict cells pointing at each other) `get_value` does not return
within any recursion depth — the source has no cycle guard. -/
theorem get_value_cycle_diverges :
    ¬ ∃ fuel : Nat,
      (getValueF [JVal.dict [("a", JVal.int 1)], JVal.dict [("b", JVal.int 0)]]
        fuel (JVal.int 0)).isSome = true := by
  rintro ⟨fuel, hf⟩
  have key : ∀ f : Nat,
      getValueF [JVal.dict [("a", JVal.int 1)], JVal.dict [("b", JVal.int 0)]]
          f (JVal.int 0) = none ∧
      getValueF [JVal.dict [("a", JVal.int 1)], JVal.dict [("b", JVal.int 0)]]
          f (JVal.int 1) = none := by
    intro f
    induction f with
    | zero => exact ⟨rfl, rfl⟩
    | succ f ih =>
      constructor
      · rw [getValueF]
        unfold getValueStep
        simp [pyIsInt, pyToInt, mapPairsOpt, ih.1, ih.2]
      · rw [getValueF]
        unfold getValueStep
        simp [pyIsInt, pyToInt, mapPairsOpt, ih.1, ih.2]
  rw [(key fuel).1] at hf
  exact absurd hf (by simp)

theorem getValueF_isSome_mono {cells : List JVal} {fuel fuel' : Nat} {idx : JVal}
    (hle : fuel ≤ fuel') (h : (getValueF cells fuel idx).isSome = true) :
    (getValueF cells fuel' idx).isSome = true := by
  cases hg : getValueF cells fuel idx with
  | none => rw [hg] at h; exact absurd h (by simp)
  | some w => rw [getValueF_mono hle hg]; rfl

/-- C2 (amended): `get_value` returns, at every index, within some finite
recursion depth whenever the dereference relation of the cell array is
well-founded — which is exactly the acyclic case for a finite array.  The
companion `get_value_cycle_diverges` shows the recursion diverging on a
cyclic index graph, so the well-foundedness hypothesis cannot be dropped. -/
theorem get_value_terminates_of_wf (cells : List JVal)
    (hwf : WellFounded (refIdx cells)) (idx : JVal) :
    ∃ fuel : Nat, (getValueF cells fuel idx).isSome = true := by
  have main : ∀ j : Nat, ∀ v : JVal, pyIsInt v = true → pyToInt v = (j : Int) →
      ∃ fuel : Nat, (getValueF cells fuel v).isSome = true := by
    intro j
    refine @WellFounded.induction Nat (refIdx cells) hwf
      (fun j => ∀ v : JVal, pyIsInt v = true → pyToInt v = (j : Int) →
        ∃ fuel : Nat, (getValueF cells fuel v).isSome = true) j ?_
    intro x ih v hvint hvval
    have hx0 : ¬ (pyToInt v < 0) := by rw [hvval]; omega
    have hxtn : (pyToInt v).toNat = x := by rw [hvval]; omega
    cases hget : cells[x]? with
    | none =>
      refine ⟨1, ?_⟩
      rw [getValueF]
      unfold getValueStep
      simp [hvint, hx0, hxtn, hget]
    | some cell =>
      cases cell with
      | dict d =>
        by_cases hd : d.all (fun kv => pyIsInt kv.2) = true
        · have hterm : ∀ kv ∈ d, ∃ f : Nat, (getValueF cells f kv.2).isSome = true := by
            intro kv hkv
            have hkint : pyIsInt kv.2 = true := by
              have := List.all_eq_true.mp hd kv hkv
              simpa using this
            by_cases hneg : pyToInt kv.2 < 0
            · refine ⟨1, ?_⟩
              rw [getValueF]
              unfold getValueStep
              simp [hkint, hneg]
            · by_cases htlen : (pyToInt kv.2).toNat < cells.length
              · have href : refIdx cells ((pyToInt kv.2).toNat) x := by
                  refine ⟨JVal.dict d, kv.2, hget, ?_, ?_, htlen⟩
                  · simp only [refTargets, hd, if_true]
                    exact List.mem_map.mpr ⟨kv, hkv, rfl⟩
                  · exact (Int.toNat_of_nonneg (not_lt.mp hneg)).symm
                exact ih _ href kv.2 hkint (Int.toNat_of_nonneg (not_lt.mp hneg)).symm
              · refine ⟨1, ?_⟩
                rw [getValueF]
                unfold getValueStep
                have hnone : cells[(pyToInt kv.2).toNat]? = none :=
                  List.getElem?_eq_none_iff.mpr (le_of_not_lt htlen)
                simp [hkint, hneg, hnone]
          obtain ⟨F, hF⟩ := exists_uniform_fuel
            (fun f kv => (getValueF cells f kv.2).isSome = true)
            (fun f f' kv hle hp => by exact getValueF_isSome_mono hle hp) d hterm
          have hmp : (mapPairsOpt (fun i => getValueF cells F i) d).isSome = true :=
            mapPairsOpt_isSome_of_entries hF
          refine ⟨F + 1, ?_⟩
          rw [getValueF]
          unfold getValueStep
          simpa [hvint, hx0, hxtn, hget, hd] using hmp
        · refine ⟨1, ?_⟩
          rw [getValueF]
          unfold getValueStep
          simp [hvint, hx0, hxtn, hget, hd]
      | list l =>
        by_cases hl : (!l.isEmpty && l.all pyIsInt) = true
        · have hall : l.all pyIsInt = true := by
            have hl' := hl
            simp only [Bool.and_eq_true] at hl'
            exact hl'.2
          have hterm : ∀ e ∈ l, ∃ f : Nat, (getValueF cells f e).isSome = true := by
            intro e he
            have heint : pyIsInt e = true := List.all_eq_true.mp hall e he
            by_cases hneg : pyToInt e < 0
            · refine ⟨1, ?_⟩
              rw [getValueF]
              unfold getValueStep
              simp [heint, hneg]
            · by_cases htlen : (pyToInt e).toNat < cells.length
              · have href : refIdx cells ((pyToInt e).toNat) x := by
                  refine ⟨JVal.list l, e, hget, ?_, ?_, htlen⟩
                  · simp only [refTargets, hl, if_true]
                    exact he
                  · exact (Int.toNat_of_nonneg (not_lt.mp hneg)).symm
                exact ih _ href e heint (Int.toNat_of_nonneg (not_lt.mp hneg)).symm
              · refine ⟨1, ?_⟩
                rw [getValueF]
                unfold getValueStep
                have hnone : cells[(pyToInt e).toNat]? = none :=
                  List.getElem?_eq_none_iff.mpr (le_of_not_lt htlen)
                simp [heint, hneg, hnone]
          obtain ⟨F, hF⟩ := exists_uniform_fuel
            (fun f e => (getValueF cells f e).isSome = true)
            (fun f f' e hle hp => by exact getValueF_isSome_mono hle hp) l hterm
          have hmp : (mapListOpt (fun i => getValueF cells F i) l).isSome = true :=
            mapListOpt_isSome_of_elems hF
          refine ⟨F + 1, ?_⟩
          rw [getValueF]
          unfold getValueStep
          simpa [hvint, hx0, hxtn, hget, hl] using hmp
        · refine ⟨1, ?_⟩
          rw [getValueF]
          unfold getValueStep
          simp [hvint, hx0, hxtn, hget, hl]
      | null =>
        refine ⟨1, ?_⟩
        rw [getValueF]
        unfold getValueStep
        simp [hvint, hx0, hxtn, hget]
      | bool b =>
        refine ⟨1, ?_⟩
        rw [getValueF]
        unfold getValueStep
        simp [hvint, hx0, hxtn, hget]
      | int n =>
        refine ⟨1, ?_⟩
        rw [getValueF]
        unfold getValueStep
        simp [hvint, hx0, hxtn, hget]
      | float lit =>
        refine ⟨1, ?_⟩
        rw [getValueF]
        unfold getValueStep
        simp [hvint, hx0, hxtn, hget]
      | str s =>
        refine ⟨1, ?_⟩
        rw [getValueF]
        unfold getValueStep
        simp [hvint, hx0, hxtn, hget]
  by_cases hi : pyIsInt idx = true
  · by_cases hneg : pyToInt idx < 0
    · refine ⟨1, ?_⟩
      rw [getValueF]
      unfold getValueStep
      simp [hi, hneg]
    · by_cases hlen : (pyToInt idx).toNat < cells.length
      · exact main ((pyToInt idx).toNat) idx hi
          (Int.toNat_of_nonneg (not_lt.mp hneg)).symm
      · refine ⟨1, ?_⟩
        rw [getValueF]
        unfold getValueStep
        have hnone : cells[(pyToInt idx).toNat]? = none :=
          List.getElem?_eq_none_iff.mpr (le_of_not_lt hlen)
        simp [hi, hneg, hnone]
  · refine ⟨1, ?_⟩
    rw [getValueF]
    unfold getValueStep
    have hi' : pyIsInt idx = false := by
      cases h : pyIsInt idx
      · rfl
      · exact absurd h hi
    simp [hi']

theorem get_value_terminates_of_wf_witness :
    ∃ fuel : Nat, (getValueF [JVal.int 5] fuel (JVal.int 0)).isSome = true := by
  have hnone : ∀ i j : Nat, ¬ refIdx [JVal.int 5] i j := by
    rintro i j ⟨cell, v, hget, hmem, hv, hlt⟩
    match j with
    | 0 =>
      have hc : cell = JVal.int 5 := by simpa using hget.symm
      subst hc
      simp [refTargets] at hmem
    | j + 1 => simp at hget
  exact get_value_terminates_of_wf [JVal.int 5]
    (WellFounded.intro (fun a => Acc.intro a (fun y hy => absurd hy (hnone y a))))
    (JVal.int 0)

end Rco
